import Mathlib

/-!
Shallow embedding of `src/lib/models/room-state.js` (the Room State Store of
a Matrix-style client SDK) and verification of its specified properties.

JavaScript dictionaries (`this.members`, `this.stateEvents`) are embedded as
association lists over `String` keys; property assignment `obj[k] = v` is
`setAssoc`, property read `obj[k]` is `alookup`.  JavaScript exceptions are
embedded as `Except`: a thrown error that escapes a method carries the
partially mutated state where the method mutates in place before throwing.
JavaScript `a || b` on numbers-or-undefined is embedded via `jsOr`
(`undefined` and `0` are falsy).  The division producing `powerLevelNorm`
is embedded over `ℚ`.
-/

namespace RoomStateModel

/-- The shape of a typing event content's `user_ids` field: either a proper
array of user id strings, or any non-array value (including an absent field),
which `utils.isArray` rejects. -/
inductive UserIds where
  | ids (l : List String)
  | notList
deriving Repr, DecidableEq

/-- Modelled from the spec (section 6): the structured content payload of an
event, as consumed through the event accessor capability.  The fields used by
`room-state.js` are the power-levels shape
`{users: mapping<userId, integer>, users_default: integer}` (each field
possibly absent, hence `Option`), the typing shape
`{user_ids: sequence<userId>}`, and the membership value of a membership
event (carried opaquely; `room-state.js` never inspects it). -/
structure Content where
  users : Option (List (String × Int))
  users_default : Option Int
  user_ids : UserIds
  membership : Option String
deriving Repr, DecidableEq

/-- Modelled from the spec (section 6): an event as seen through the accessor
capability: room identifier (`getRoomId`), event type (`getType`), state key
(`getStateKey`), the "is state event" flag (`isState`) and the content
(`getContent`). -/
structure Event where
  roomId : String
  type : String
  stateKey : String
  isState : Bool
  content : Content
deriving Repr, DecidableEq

/-- Modelled from the spec (section 3): a Member Record
`{userId, displayName, typing, powerLevel, powerLevelNorm}` as constructed by
the `RoomMember` constructor (models/room-member.js, outside the analysed
sources): `userId` is the membership event's state key, `typing` starts
false, power fields start at 0.  `powerLevelNorm` is a rational since the
source computes it with JavaScript `/`. -/
structure RoomMember where
  userId : String
  name : String
  typing : Bool
  powerLevel : Int
  powerLevelNorm : ℚ
  membership : Option String
deriving Repr, DecidableEq

/-- The Room State Store: `roomId`, `members` (userId → RoomMember),
`stateEvents` (event type → (state key → event)), `paginationToken`. -/
structure RoomState where
  roomId : String
  members : List (String × RoomMember)
  stateEvents : List (String × List (String × Event))
  paginationToken : Option String
deriving Repr, DecidableEq

/-- JavaScript dictionary read `obj[k]`: first entry with the given key. -/
def alookup {α : Type} (k : String) : List (String × α) → Option α
  | [] => none
  | (k2, v) :: rest => if k2 = k then some v else alookup k rest

/-- JavaScript dictionary write `obj[k] = v`: replace the entry with the
given key, or append a fresh one. -/
def setAssoc {α : Type} (k : String) (v : α) : List (String × α) → List (String × α)
  | [] => [(k, v)]
  | (k2, v2) :: rest => if k2 = k then (k, v) :: rest else (k2, v2) :: setAssoc k v rest

/-- Modelled from the spec: `utils.values(obj)` (lib/utils.js, outside the
analysed sources) lists a dictionary's values; on an absent (`undefined`)
dictionary it yields nothing, as `for (key in undefined)` iterates zero
times. -/
def jsValues {α : Type} : Option (List (String × α)) → List α
  | none => []
  | some l => l.map Prod.snd

/-- JavaScript truthiness of a number-or-undefined: `undefined` and `0` are
falsy. -/
def intTruthy : Option Int → Bool
  | none => false
  | some n => n != 0

/-- JavaScript `a || b` on numbers-or-undefined. -/
def jsOr (a b : Option Int) : Option Int := if intTruthy a then a else b

/-- `getMembers()`: all current member records, `utils.values(this.members)`. -/
def getMembers (s : RoomState) : List RoomMember := s.members.map Prod.snd

/-- Two-level dictionary read, the body of `getStateEvents(type, key)` after
the `undefined` guards. -/
def lookup2 (m : List (String × List (String × Event))) (t k : String) : Option Event :=
  match alookup t m with
  | none => none
  | some row => alookup k row

/-- `getStateEvents(eventType, stateKey)` with a state key supplied: the
single current event in that slot, or `null` (here `none`).  The source's
`event ? event : null` collapses an absent entry to `null`. -/
def getStateEvents (s : RoomState) (eventType stateKey : String) : Option Event :=
  lookup2 s.stateEvents eventType stateKey

/-- `getStateEvents(eventType)` with the state key `undefined`: all current
events of the type, `[]` when the type has no row. -/
def getStateEventsAll (s : RoomState) (eventType : String) : List Event :=
  match alookup eventType s.stateEvents with
  | none => []
  | some row => row.map Prod.snd

/-- The two-level write
`this.stateEvents[type] = this.stateEvents[type] || {}; this.stateEvents[type][key] = e`
(source lines 69–72). -/
def insert2 (m : List (String × List (String × Event))) (t k : String) (e : Event) :
    List (String × List (String × Event)) :=
  match alookup t m with
  | none => setAssoc t [(k, e)] m
  | some row => setAssoc t (setAssoc k e row) m

/-- The `maxLevel` accumulator of `_setPowerLevel`:
`users_default || 0`, then `Math.max` over every value of `content.users`. -/
def maxLevelOf (c : Content) : Int :=
  (jsValues c.users).foldl (fun acc lvl => max acc lvl) ((jsOr c.users_default (some 0)).getD 0)

/-- Modelled from the spec: display-name derivation is delegated to an
external naming collaborator (`member.calculateDisplayName(roomState)`); its
value is immaterial to every folded invariant, so it is embedded as the
member's user identifier. -/
def calculateDisplayName (e : Event) (_s : RoomState) : String := e.stateKey

/-- Modelled from the spec (section 3): `new RoomMember(event)` followed by
`member.calculateDisplayName(roomState)` — a fresh member record for the
membership event's state key. -/
def newRoomMember (e : Event) (s : RoomState) : RoomMember :=
  { userId := e.stateKey
    name := calculateDisplayName e s
    typing := false
    powerLevel := 0
    powerLevelNorm := 0
    membership := e.content.membership }

/-- `_setPowerLevel(powerLevelEvent, roomMember)` (source lines 98–112).
When `content.users` is absent, the member read
`content.users[roomMember.userId]` throws a `TypeError` before any member
field is assigned; otherwise
`powerLevel = users[userId] || users_default || 0` (JavaScript falsy
coalescing) and `powerLevelNorm = maxLevel > 0 ? powerLevel * 100 / maxLevel : 0`. -/
def _setPowerLevel (c : Content) (m : RoomMember) : Except String RoomMember :=
  match c.users with
  | none => Except.error "TypeError: cannot read properties of undefined"
  | some users =>
    let powerLevel : Int := (jsOr (jsOr (alookup m.userId users) c.users_default) (some 0)).getD 0
    let powerLevelNorm : ℚ :=
      if maxLevelOf c > 0 then ((powerLevel : ℚ) * 100) / ((maxLevelOf c : Int) : ℚ) else 0
    Except.ok { m with powerLevel := powerLevel, powerLevelNorm := powerLevelNorm }

/-- The `m.room.power_levels` side effect: `_setPowerLevel` applied in place
to every current member (source lines 84–89).  A throw aborts the iteration;
the returned list is the dictionary at that moment (already-processed
members updated, the rest untouched) paired with the error, if any. -/
def setAllPowerLevels (c : Content) :
    List (String × RoomMember) → List (String × RoomMember) × Option String
  | [] => ([], none)
  | (uid, m) :: rest =>
    match _setPowerLevel c m with
    | Except.error msg => ((uid, m) :: rest, some msg)
    | Except.ok m2 =>
      let r := setAllPowerLevels c rest
      ((uid, m2) :: r.1, r.2)

/-- One iteration of the `setStateEvents` loop (source lines 65–90): skip on
room mismatch, skip non-state events, write the state index, then the
type-keyed side effects.  An escaping `TypeError` from `_setPowerLevel`
carries the state as mutated so far. -/
def setStateEvent1 (s : RoomState) (e : Event) : Except (String × RoomState) RoomState :=
  if e.roomId ≠ s.roomId then Except.ok s
  else if e.isState = false then Except.ok s
  else
    let s1 : RoomState := { s with stateEvents := insert2 s.stateEvents e.type e.stateKey e }
    if e.type = "m.room.member" then
      let member := newRoomMember e s1
      let s2 : RoomState := { s1 with members := setAssoc e.stateKey member s1.members }
      match getStateEvents s2 "m.room.power_levels" "" with
      | none => Except.ok s2
      | some pwrLvlEvent =>
        match _setPowerLevel pwrLvlEvent.content member with
        | Except.ok m2 => Except.ok { s2 with members := setAssoc e.stateKey m2 s2.members }
        | Except.error msg => Except.error (msg, s2)
    else if e.type = "m.room.power_levels" then
      match setAllPowerLevels e.content s1.members with
      | (ms2, none) => Except.ok { s1 with members := ms2 }
      | (ms2, some msg) => Except.error (msg, { s1 with members := ms2 })
    else
      Except.ok s1

/-- `setStateEvents(stateEvents)`: fold the batch left to right; a throw
aborts the remainder of the batch. -/
def setStateEvents (s : RoomState) : List Event → Except (String × RoomState) RoomState
  | [] => Except.ok s
  | e :: rest =>
    match setStateEvent1 s e with
    | Except.ok s2 => setStateEvents s2 rest
    | Except.error err => Except.error err

/-- The typing reset: `member.typing = false` for every current member. -/
def resetTyping (ms : List (String × RoomMember)) : List (String × RoomMember) :=
  ms.map (fun p => (p.1, { p.2 with typing := false }))

/-- The selective set: for each listed user id, `members[userId].typing = true`
when the member exists, silently skipping unknown ids. -/
def applyTypingList (ms : List (String × RoomMember)) : List String → List (String × RoomMember)
  | [] => ms
  | uid :: rest =>
    match alookup uid ms with
    | none => applyTypingList ms rest
    | some m => applyTypingList (setAssoc uid { m with typing := true } ms) rest

/-- `setTypingEvent(event)` (source lines 119–143): throw on a non-typing
type (before touching any state), reset every member's `typing`, bail out if
`content.user_ids` is not an array, else set the listed known members. -/
def setTypingEvent (s : RoomState) (e : Event) : Except String RoomState :=
  if e.type ≠ "m.typing" then
    Except.error ("Not a typing event -> " ++ e.type)
  else
    let ms := resetTyping s.members
    match e.content.user_ids with
    | UserIds.notList => Except.ok { s with members := ms }
    | UserIds.ids l => Except.ok { s with members := applyTypingList ms l }

/-- The observable state after a `setStateEvents` call, throw or no throw:
the store object survives an escaping exception with the mutations applied
up to the throw. -/
def runStateEvents (s : RoomState) (es : List Event) : RoomState :=
  match setStateEvents s es with
  | Except.ok s2 => s2
  | Except.error (_, s2) => s2

/-- The observable state after a `setTypingEvent` call: the guard throws
before any mutation, so an error leaves the store as it was. -/
def runTyping (s : RoomState) (e : Event) : RoomState :=
  match setTypingEvent s e with
  | Except.ok s2 => s2
  | Except.error _ => s

/-- An external call into the store's mutating surface. -/
inductive Call where
  | state (es : List Event)
  | typing (e : Event)

/-- Execute one call against the store. -/
def runCall (s : RoomState) : Call → RoomState
  | Call.state es => runStateEvents s es
  | Call.typing e => runTyping s e

/-- The set of user identifiers present in the member dictionary. -/
def memberKeys (s : RoomState) : List String := s.members.map Prod.fst

/-! ### Dictionary lemmas -/

theorem alookup_setAssoc {α : Type} (k k2 : String) (v : α) (ms : List (String × α)) :
    alookup k2 (setAssoc k v ms) = if k2 = k then some v else alookup k2 ms := by
  induction ms with
  | nil =>
    simp only [setAssoc, alookup]
    by_cases h : k2 = k
    · rw [if_pos h.symm, if_pos h]
    · rw [if_neg (fun hh => h hh.symm), if_neg h]
  | cons p rest ih =>
    obtain ⟨k3, v3⟩ := p
    simp only [setAssoc]
    by_cases h3 : k3 = k
    · rw [if_pos h3]
      simp only [alookup]
      by_cases h : k2 = k
      · rw [if_pos h.symm, if_pos h]
      · rw [if_neg (fun hh => h hh.symm), if_neg h, if_neg (fun hh => h (hh.symm.trans h3))]
    · rw [if_neg h3]
      simp only [alookup]
      by_cases h : k3 = k2
      · rw [if_pos h, if_pos h, if_neg (fun hh => h3 (h.trans hh))]
      · rw [if_neg h, if_neg h, ih]

theorem alookup_isSome_iff_mem_fst {α : Type} (k : String) (ms : List (String × α)) :
    (alookup k ms).isSome ↔ k ∈ ms.map Prod.fst := by
  induction ms with
  | nil => simp [alookup]
  | cons p rest ih =>
    obtain ⟨k3, v3⟩ := p
    simp only [alookup, List.map_cons, List.mem_cons]
    by_cases h3 : k3 = k
    · rw [if_pos h3]
      simp [h3]
    · rw [if_neg h3]
      simp only [ih]
      constructor
      · exact fun h => Or.inr h
      · rintro (h | h)
        · exact absurd h.symm h3
        · exact h

theorem alookup_mem_snd {α : Type} (k : String) (v : α) (ms : List (String × α))
    (h : alookup k ms = some v) : v ∈ ms.map Prod.snd := by
  induction ms with
  | nil => simp [alookup] at h
  | cons p rest ih =>
    obtain ⟨k3, v3⟩ := p
    simp only [alookup] at h
    by_cases h3 : k3 = k
    · rw [if_pos h3] at h
      simp only [Option.some_inj] at h
      simp [h]
    · rw [if_neg h3] at h
      simp [ih h]

theorem mem_fst_setAssoc {α : Type} (k a : String) (v : α) (ms : List (String × α))
    (h : a ∈ ms.map Prod.fst) : a ∈ (setAssoc k v ms).map Prod.fst := by
  rw [← alookup_isSome_iff_mem_fst] at h ⊢
  rw [alookup_setAssoc]
  by_cases ha : a = k
  · rw [if_pos ha]; rfl
  · rw [if_neg ha]; exact h

theorem self_mem_fst_setAssoc {α : Type} (k : String) (v : α) (ms : List (String × α)) :
    k ∈ (setAssoc k v ms).map Prod.fst := by
  rw [← alookup_isSome_iff_mem_fst, alookup_setAssoc, if_pos rfl]
  rfl

theorem alookup_insert2 (m : List (String × List (String × Event))) (t k t2 : String)
    (e : Event) :
    alookup t2 (insert2 m t k e) =
      if t2 = t then
        some (match alookup t m with | none => [(k, e)] | some row => setAssoc k e row)
      else alookup t2 m := by
  unfold insert2
  cases alookup t m with
  | none => rw [alookup_setAssoc]
  | some row => rw [alookup_setAssoc]

theorem lookup2_insert2 (m : List (String × List (String × Event))) (t k t2 k2 : String)
    (e : Event) :
    lookup2 (insert2 m t k e) t2 k2 =
      if t2 = t ∧ k2 = k then some e else lookup2 m t2 k2 := by
  unfold lookup2
  rw [alookup_insert2]
  by_cases ht : t2 = t
  · subst ht
    rw [if_pos rfl]
    simp only [eq_self_iff_true, true_and]
    cases hrow : alookup t2 m with
    | none =>
      by_cases hk : k2 = k
      · simp [alookup, hk]
      · have hk2 : ¬k = k2 := fun hh => hk hh.symm
        simp [alookup, hk, hk2]
    | some row =>
      by_cases hk : k2 = k
      · simp [alookup_setAssoc, hk]
      · simp [alookup_setAssoc, hk]
  · rw [if_neg ht, if_neg (fun hh : t2 = t ∧ k2 = k => ht hh.1)]

/-! ### Typing projector lemmas -/

theorem alookup_resetTyping (uid : String) (ms : List (String × RoomMember)) :
    alookup uid (resetTyping ms) =
      (alookup uid ms).map (fun m => { m with typing := false }) := by
  induction ms with
  | nil => simp [resetTyping, alookup]
  | cons p rest ih =>
    obtain ⟨k3, v3⟩ := p
    simp only [resetTyping, List.map_cons, alookup]
    by_cases h3 : k3 = uid
    · rw [if_pos h3, if_pos h3]
      rfl
    · rw [if_neg h3, if_neg h3]
      simpa [resetTyping] using ih

theorem alookup_applyTypingList (uid : String) (ms : List (String × RoomMember))
    (l : List String) :
    alookup uid (applyTypingList ms l) =
      if uid ∈ l then (alookup uid ms).map (fun m => { m with typing := true })
      else alookup uid ms := by
  induction l generalizing ms with
  | nil => simp [applyTypingList]
  | cons u rest ih =>
    unfold applyTypingList
    cases hu : alookup u ms with
    | none =>
      rw [ih]
      by_cases huid : uid = u
      · subst huid
        simp [hu]
      · simp [List.mem_cons, huid]
    | some m =>
      rw [ih]
      by_cases huid : uid = u
      · subst huid
        simp [alookup_setAssoc, hu]
      · simp [alookup_setAssoc, huid, List.mem_cons]

theorem isSome_alookup_applyTypingList (uid : String) (ms : List (String × RoomMember))
    (l : List String) :
    (alookup uid (applyTypingList ms l)).isSome = (alookup uid ms).isSome := by
  rw [alookup_applyTypingList]
  by_cases h : uid ∈ l
  · rw [if_pos h]
    cases alookup uid ms <;> rfl
  · rw [if_neg h]

theorem isSome_alookup_resetTyping (uid : String) (ms : List (String × RoomMember)) :
    (alookup uid (resetTyping ms)).isSome = (alookup uid ms).isSome := by
  rw [alookup_resetTyping]
  cases alookup uid ms <;> rfl

/-! ### Power level projector lemmas -/

theorem le_foldl_max (b : Int) (l : List Int) :
    b ≤ l.foldl (fun acc lvl => max acc lvl) b := by
  induction l generalizing b with
  | nil => exact le_refl b
  | cons x rest ih =>
    exact le_trans (le_max_left b x) (ih (max b x))

theorem mem_le_foldl_max (b x : Int) (l : List Int) (h : x ∈ l) :
    x ≤ l.foldl (fun acc lvl => max acc lvl) b := by
  induction l generalizing b with
  | nil => simp at h
  | cons y rest ih =>
    rcases List.mem_cons.mp h with h | h
    · subst h
      exact le_trans (le_max_right b x) (le_foldl_max (max b x) rest)
    · exact ih (max b y) h

/-- The `users_default || 0` seed of the `maxLevel` accumulator. -/
theorem jsOr_default_getD (d : Option Int) :
    (jsOr d (some 0)).getD 0 = d.getD 0 := by
  cases d with
  | none => rfl
  | some v =>
    by_cases hv : v = 0
    · subst hv; rfl
    · simp [jsOr, intTruthy, hv]

/-- With `users` present, `_setPowerLevel` returns normally and its output
member differs from the input only in the two power fields. -/
theorem _setPowerLevel_ok (c : Content) (m : RoomMember) (users : List (String × Int))
    (hu : c.users = some users) :
    _setPowerLevel c m =
      Except.ok
        { m with
          powerLevel := (jsOr (jsOr (alookup m.userId users) c.users_default) (some 0)).getD 0
          powerLevelNorm :=
            if maxLevelOf c > 0 then
              (((jsOr (jsOr (alookup m.userId users) c.users_default) (some 0)).getD 0 : ℚ) * 100)
                / ((maxLevelOf c : Int) : ℚ)
            else 0 } := by
  unfold _setPowerLevel
  rw [hu]

/-- With `users` absent, `_setPowerLevel` throws before mutating the member. -/
theorem _setPowerLevel_err (c : Content) (m : RoomMember) (hu : c.users = none) :
    _setPowerLevel c m = Except.error "TypeError: cannot read properties of undefined" := by
  unfold _setPowerLevel
  rw [hu]

theorem fst_setAllPowerLevels (c : Content) (ms : List (String × RoomMember)) :
    ((setAllPowerLevels c ms).1).map Prod.fst = ms.map Prod.fst := by
  induction ms with
  | nil => rfl
  | cons p rest ih =>
    obtain ⟨uid, m⟩ := p
    unfold setAllPowerLevels
    cases _setPowerLevel c m with
    | error msg => rfl
    | ok m2 => simpa using ih

theorem snd_setAllPowerLevels_ok (c : Content) (ms : List (String × RoomMember))
    (users : List (String × Int)) (hu : c.users = some users) :
    (setAllPowerLevels c ms).2 = none := by
  induction ms with
  | nil => rfl
  | cons p rest ih =>
    obtain ⟨uid, m⟩ := p
    unfold setAllPowerLevels
    rw [_setPowerLevel_ok c m users hu]
    simpa using ih

/-! ### State event fold case lemmas -/

theorem setStateEvents_cons (s : RoomState) (e : Event) (rest : List Event) :
    setStateEvents s (e :: rest) =
      match setStateEvent1 s e with
      | Except.ok s2 => setStateEvents s2 rest
      | Except.error err => Except.error err := rfl

theorem setStateEvent1_skip_room (s : RoomState) (e : Event) (h : e.roomId ≠ s.roomId) :
    setStateEvent1 s e = Except.ok s := by
  unfold setStateEvent1
  rw [if_pos h]

theorem setStateEvent1_skip_nonstate (s : RoomState) (e : Event) (h : e.isState = false) :
    setStateEvent1 s e = Except.ok s := by
  unfold setStateEvent1
  by_cases hr : e.roomId ≠ s.roomId
  · rw [if_pos hr]
  · rw [if_neg hr, if_pos h]

theorem roomId_setStateEvent1_ok (s : RoomState) (e : Event) (s2 : RoomState)
    (h : setStateEvent1 s e = Except.ok s2) : s2.roomId = s.roomId := by
  simp only [setStateEvent1] at h
  repeat' split at h
  all_goals first
  | (injection h with h; subst h; rfl)
  | injection h

theorem roomId_setStateEvent1_err (s : RoomState) (e : Event) (err : String × RoomState)
    (h : setStateEvent1 s e = Except.error err) : err.2.roomId = s.roomId := by
  simp only [setStateEvent1] at h
  repeat' split at h
  all_goals first
  | (injection h with h; subst h; rfl)
  | injection h

theorem stateEvents_setStateEvent1_ok (s : RoomState) (e : Event) (s2 : RoomState)
    (hr : e.roomId = s.roomId) (hs : e.isState = true)
    (h : setStateEvent1 s e = Except.ok s2) :
    s2.stateEvents = insert2 s.stateEvents e.type e.stateKey e := by
  simp only [setStateEvent1] at h
  rw [if_neg (fun hh => hh hr), if_neg (by simp [hs])] at h
  repeat' split at h
  all_goals first
  | (injection h with h; subst h; rfl)
  | injection h

theorem mem_keys_setStateEvent1_ok (s : RoomState) (e : Event) (s2 : RoomState) (uid : String)
    (h : setStateEvent1 s e = Except.ok s2) (hm : uid ∈ memberKeys s) :
    uid ∈ memberKeys s2 := by
  simp only [setStateEvent1] at h
  repeat' split at h
  all_goals first
  | (injection h with h; subst h; simp only [memberKeys] at hm ⊢; first
      | exact hm
      | exact mem_fst_setAssoc _ _ _ _ hm
      | exact mem_fst_setAssoc _ _ _ _ (mem_fst_setAssoc _ _ _ _ hm))
  | (injection h with h; subst h; rename_i ms2 heq;
     (have h2 : List.map Prod.fst ms2 = List.map Prod.fst s.members := by
        have h3 := fst_setAllPowerLevels e.content s.members
        rw [heq] at h3
        exact h3);
     simp only [memberKeys] at hm ⊢; rw [h2]; exact hm)
  | injection h

theorem mem_keys_setStateEvent1_err (s : RoomState) (e : Event) (err : String × RoomState)
    (uid : String) (h : setStateEvent1 s e = Except.error err) (hm : uid ∈ memberKeys s) :
    uid ∈ memberKeys err.2 := by
  simp only [setStateEvent1] at h
  repeat' split at h
  all_goals first
  | (injection h with h; subst h; simp only [memberKeys] at hm ⊢; first
      | exact hm
      | exact mem_fst_setAssoc _ _ _ _ hm
      | exact mem_fst_setAssoc _ _ _ _ (mem_fst_setAssoc _ _ _ _ hm))
  | (injection h with h; subst h; rename_i ms2 msg heq;
     (have h2 : List.map Prod.fst ms2 = List.map Prod.fst s.members := by
        have h3 := fst_setAllPowerLevels e.content s.members
        rw [heq] at h3
        exact h3);
     simp only [memberKeys] at hm ⊢; rw [h2]; exact hm)
  | injection h

/-! ### Concrete sample data for closed evaluations -/

/-- A sample member record (user `@a:x`). -/
def sampleMemberA : RoomMember :=
  { userId := "@a:x", name := "@a:x", typing := false, powerLevel := 0, powerLevelNorm := 0
    membership := some "join" }

/-- A sample member record (user `@b:x`), currently typing. -/
def sampleMemberB : RoomMember :=
  { userId := "@b:x", name := "@b:x", typing := true, powerLevel := 0, powerLevelNorm := 0
    membership := some "join" }

/-- A sample store for room `!room:x` with members `@a:x` and `@b:x`. -/
def sampleState : RoomState :=
  { roomId := "!room:x"
    members := [("@a:x", sampleMemberA), ("@b:x", sampleMemberB)]
    stateEvents := []
    paginationToken := none }

/-- Content carrying only a `user_ids` field. -/
def typingContent (u : UserIds) : Content :=
  { users := none, users_default := none, user_ids := u, membership := none }

/-- A well-formed `m.typing` event for room `!room:x` naming `@a:x` and the
unknown `@c:x`. -/
def sampleTypingEvent : Event :=
  { roomId := "!room:x", type := "m.typing", stateKey := "", isState := false
    content := typingContent (UserIds.ids ["@a:x", "@c:x"]) }

/-- An `m.typing` event whose `user_ids` is not an array. -/
def sampleMalformedTypingEvent : Event :=
  { roomId := "!room:x", type := "m.typing", stateKey := "", isState := false
    content := typingContent UserIds.notList }

/-- An `m.room.topic` event, wrongly routed to the typing operation. -/
def sampleTopicEvent : Event :=
  { roomId := "!room:x", type := "m.room.topic", stateKey := "", isState := true
    content := typingContent UserIds.notList }

/-! ### Claims -/

/-- C4: for every event whose type is not `m.typing`, `setTypingEvent` throws
the invalid-argument error (built from the offending type) and the store is
left unchanged — in this embedding the thrown path returns no new state, so
the observable post-state `runTyping s e` is `s` itself, members, state
events and typing flags untouched. -/
theorem setTypingEvent_rejects_non_typing (s : RoomState) (e : Event)
    (h : e.type ≠ "m.typing") :
    setTypingEvent s e = Except.error ("Not a typing event -> " ++ e.type) ∧
    runTyping s e = s := by
  have herr : setTypingEvent s e = Except.error ("Not a typing event -> " ++ e.type) := by
    unfold setTypingEvent
    rw [if_pos h]
  refine ⟨herr, ?_⟩
  unfold runTyping
  rw [herr]

/-- C4 witness: the topic event is rejected by the typing operation and the
sample store survives unchanged. -/
theorem setTypingEvent_rejects_non_typing_witness :
    sampleTopicEvent.type ≠ "m.typing" ∧
    (setTypingEvent sampleState sampleTopicEvent =
        Except.error ("Not a typing event -> " ++ sampleTopicEvent.type) ∧
      runTyping sampleState sampleTopicEvent = sampleState) :=
  ⟨by decide, setTypingEvent_rejects_non_typing sampleState sampleTopicEvent (by decide)⟩

/-- C5: an `m.typing` event whose `user_ids` is not a proper array resets
`typing` to false on every current member and returns normally with no other
effect (roomId, stateEvents and paginationToken are untouched and the member
dictionary is the typing-reset of the old one). -/
theorem setTypingEvent_malformed_resets (s : RoomState) (e : Event)
    (ht : e.type = "m.typing") (hm : e.content.user_ids = UserIds.notList) :
    setTypingEvent s e = Except.ok { s with members := resetTyping s.members } ∧
    ∀ p ∈ resetTyping s.members, p.2.typing = false := by
  constructor
  · unfold setTypingEvent
    rw [if_neg (fun hh => hh ht), hm]
  · intro p hp
    rcases List.mem_map.mp hp with ⟨q, _, rfl⟩
    rfl

/-- C5 witness: the malformed typing event resets the sample store (where
`@b:x` was typing) without failing. -/
theorem setTypingEvent_malformed_resets_witness :
    sampleMalformedTypingEvent.type = "m.typing" ∧
    sampleMalformedTypingEvent.content.user_ids = UserIds.notList ∧
    (setTypingEvent sampleState sampleMalformedTypingEvent =
        Except.ok { sampleState with members := resetTyping sampleState.members } ∧
      ∀ p ∈ resetTyping sampleState.members, p.2.typing = false) :=
  ⟨by decide, by decide,
    setTypingEvent_malformed_resets sampleState sampleMalformedTypingEvent rfl rfl⟩

/-- C9: `setTypingEvent` never consults the event's room identifier: changing
`roomId` arbitrarily changes nothing about the call's outcome, so the typing
replacement applies to this store's members even for an event of another
room. -/
theorem setTypingEvent_ignores_roomId (s : RoomState) (e : Event) (rid : String) :
    setTypingEvent s { e with roomId := rid } = setTypingEvent s e := rfl

/-- C3: folding a typing event with a proper `user_ids` list replaces the
typing set: the call returns normally, a member record is reachable under a
user id afterwards exactly when it was before, and its `typing` flag is true
exactly when that user id occurs in the list — independent of all prior
typing state, with unknown ids silently skipped. -/
theorem setTypingEvent_replaces_typing_set (s : RoomState) (e : Event) (l : List String)
    (ht : e.type = "m.typing") (hl : e.content.user_ids = UserIds.ids l) :
    ∃ s2, setTypingEvent s e = Except.ok s2 ∧
      (∀ uid m, alookup uid s2.members = some m → (m.typing = true ↔ uid ∈ l)) ∧
      (∀ uid, (alookup uid s2.members).isSome = (alookup uid s.members).isSome) := by
  refine ⟨{ s with members := applyTypingList (resetTyping s.members) l }, ?_, ?_, ?_⟩
  · unfold setTypingEvent
    rw [if_neg (fun hh => hh ht), hl]
  · intro uid m hm2
    simp only at hm2
    rw [alookup_applyTypingList, alookup_resetTyping] at hm2
    by_cases huid : uid ∈ l
    · rw [if_pos huid] at hm2
      cases ha : alookup uid s.members with
      | none => rw [ha] at hm2; simp at hm2
      | some m0 =>
        rw [ha] at hm2
        simp only [Option.map_some'] at hm2
        rw [Option.some_inj] at hm2
        rw [← hm2]
        simp [huid]
    · rw [if_neg huid] at hm2
      cases ha : alookup uid s.members with
      | none => rw [ha] at hm2; simp at hm2
      | some m0 =>
        rw [ha] at hm2
        simp only [Option.map_some'] at hm2
        rw [Option.some_inj] at hm2
        rw [← hm2]
        simp [huid]
  · intro uid
    simp only
    rw [isSome_alookup_applyTypingList, isSome_alookup_resetTyping]

/-- C3 witness: on the sample store, the typing list `[@a:x, @c:x]` (with
`@c:x` unknown) makes exactly `@a:x` typing and `@b:x` not typing. -/
theorem setTypingEvent_replaces_typing_set_witness :
    sampleTypingEvent.type = "m.typing" ∧
    sampleTypingEvent.content.user_ids = UserIds.ids ["@a:x", "@c:x"] ∧
    (∃ s2, setTypingEvent sampleState sampleTypingEvent = Except.ok s2 ∧
      (∀ uid m, alookup uid s2.members = some m → (m.typing = true ↔ uid ∈ ["@a:x", "@c:x"])) ∧
      (∀ uid, (alookup uid s2.members).isSome = (alookup uid sampleState.members).isSome)) :=
  ⟨rfl, rfl,
    setTypingEvent_replaces_typing_set sampleState sampleTypingEvent ["@a:x", "@c:x"] rfl rfl⟩

/-- Power-levels content listing `@a:x` at level 0 with a nonzero default. -/
def listedZeroContent : Content :=
  { users := some [("@a:x", 0)], users_default := some 50, user_ids := UserIds.notList
    membership := none }

/-- C1 counterexample: with `users = {"@a:x": 0}` and `users_default = 50`,
the projected `powerLevel` of member `@a:x` is 50, not the explicitly listed
0 the claim requires — the `||` chain treats a listed 0 as absent. -/
theorem powerLevel_listed_zero_counterexample :
    alookup sampleMemberA.userId [("@a:x", (0 : Int))] = some 0 ∧
    (_setPowerLevel listedZeroContent sampleMemberA).toOption.map RoomMember.powerLevel
      = some 50 ∧
    (_setPowerLevel listedZeroContent sampleMemberA).toOption.map RoomMember.powerLevel
      ≠ some 0 := by
  refine ⟨by decide, by decide, by decide⟩

/-- Evaluation of the JavaScript chain `a || b || 0` on integers. -/
theorem jsOr_chain_eval (a d : Option Int) :
    (jsOr (jsOr a d) (some 0)).getD 0 =
      (match a with
        | some lvl =>
          if lvl ≠ 0 then lvl
          else
            match d with
            | some dv => if dv ≠ 0 then dv else 0
            | none => 0
        | none =>
          match d with
          | some dv => if dv ≠ 0 then dv else 0
          | none => 0) := by
  cases a with
  | none =>
    cases d with
    | none => rfl
    | some dv =>
      by_cases h0 : dv = 0
      · subst h0; rfl
      · simp [jsOr, intTruthy, h0]
  | some lvl =>
    by_cases hl : lvl = 0
    · subst hl
      cases d with
      | none => rfl
      | some dv =>
        by_cases h0 : dv = 0
        · subst h0; rfl
        · simp [jsOr, intTruthy, h0]
    · simp [jsOr, intTruthy, hl]

/-- C1 amended: the projection always succeeds when `users` is present, and
`powerLevel` is `users[userId]` when present and nonzero, else `users_default`
when present and nonzero, else 0 — JavaScript falsy coalescing, under which
an explicitly listed 0 falls through to `users_default`. -/
theorem powerLevel_falsy_chain (users : List (String × Int)) (d : Option Int)
    (u : UserIds) (mem : Option String) (m : RoomMember) :
    ∃ m2,
      _setPowerLevel
          { users := some users, users_default := d, user_ids := u, membership := mem } m
        = Except.ok m2 ∧
      m2.powerLevel =
        (match alookup m.userId users with
          | some lvl =>
            if lvl ≠ 0 then lvl
            else
              match d with
              | some dv => if dv ≠ 0 then dv else 0
              | none => 0
          | none =>
            match d with
            | some dv => if dv ≠ 0 then dv else 0
            | none => 0) := by
  refine ⟨_, rfl, ?_⟩
  exact jsOr_chain_eval (alookup m.userId users) d

/-- A membership event for `@a:x` in room `!room:x`. -/
def sampleMemberEventA : Event :=
  { roomId := "!room:x", type := "m.room.member", stateKey := "@a:x", isState := true
    content := { users := none, users_default := none, user_ids := UserIds.notList
                 membership := some "join" } }

/-- A state event belonging to a different room. -/
def sampleForeignEvent : Event :=
  { roomId := "!other:x", type := "m.room.topic", stateKey := "", isState := true
    content := typingContent UserIds.notList }

/-- C6: an event whose room identifier differs from the store's `roomId`
contributes nothing to a `setStateEvents` batch: the entire fold result
(state, members, every derived field, and any error) is identical to the
fold with that event omitted. -/
theorem setStateEvents_skips_foreign_room (s : RoomState) (l1 l2 : List Event) (e : Event)
    (h : e.roomId ≠ s.roomId) :
    setStateEvents s (l1 ++ e :: l2) = setStateEvents s (l1 ++ l2) := by
  induction l1 generalizing s with
  | nil =>
    simp only [List.nil_append]
    show setStateEvents s (e :: l2) = setStateEvents s l2
    rw [setStateEvents_cons, setStateEvent1_skip_room s e h]
  | cons a rest ih =>
    simp only [List.cons_append]
    show setStateEvents s (a :: (rest ++ e :: l2)) = setStateEvents s (a :: (rest ++ l2))
    rw [setStateEvents_cons, setStateEvents_cons]
    cases ha : setStateEvent1 s a with
    | ok s2 =>
      exact ih s2 (fun hh => h (hh.trans (roomId_setStateEvent1_ok s a s2 ha)))
    | error err => rfl

/-- C6 witness: dropping the foreign-room event from a concrete batch leaves
the fold result unchanged. -/
theorem setStateEvents_skips_foreign_room_witness :
    sampleForeignEvent.roomId ≠ sampleState.roomId ∧
    setStateEvents sampleState ([sampleMemberEventA] ++ sampleForeignEvent :: []) =
      setStateEvents sampleState ([sampleMemberEventA] ++ []) :=
  ⟨by decide,
    setStateEvents_skips_foreign_room sampleState [sampleMemberEventA] [] sampleForeignEvent
      (by decide)⟩

/-- C2: folding a batch of accepted state events that all share one
(type, state key) slot makes `getStateEvents(type, key)` return exactly the
batch's last event — unconditional overwrite in delivery order, no timestamp
comparison or merge. -/
theorem getStateEvents_last_write_wins (s : RoomState) (es : List Event) (t k : String)
    (s2 : RoomState) (hne : es ≠ [])
    (hall : ∀ e ∈ es, e.roomId = s.roomId ∧ e.isState = true ∧ e.type = t ∧ e.stateKey = k)
    (hfold : setStateEvents s es = Except.ok s2) :
    getStateEvents s2 t k = es.getLast? := by
  induction es generalizing s with
  | nil => exact absurd rfl hne
  | cons e rest ih =>
    simp only [setStateEvents] at hfold
    cases hstep : setStateEvent1 s e with
    | error err => rw [hstep] at hfold; cases hfold
    | ok s1 =>
      rw [hstep] at hfold
      obtain ⟨hr, hs, hty, hk⟩ := hall e (List.mem_cons_self e rest)
      cases rest with
      | nil =>
        simp only [setStateEvents] at hfold
        injection hfold with hfold
        subst hfold
        have hst := stateEvents_setStateEvent1_ok s e s1 hr hs hstep
        rw [List.getLast?_singleton]
        unfold getStateEvents
        rw [hst, lookup2_insert2, if_pos ⟨hty.symm, hk.symm⟩]
      | cons e2 rest2 =>
        rw [List.getLast?_cons_cons]
        exact ih s1 (fun hh => List.noConfusion hh)
          (fun x hx => by
            obtain ⟨xr, xs, xt, xk⟩ := hall x (List.mem_cons_of_mem e hx)
            exact ⟨xr.trans (roomId_setStateEvent1_ok s e s1 hstep).symm, xs, xt, xk⟩)
          hfold

/-- A first topic state event. -/
def sampleTopicState1 : Event :=
  { roomId := "!room:x", type := "m.room.topic", stateKey := "", isState := true
    content := typingContent UserIds.notList }

/-- A second, different topic state event for the same slot. -/
def sampleTopicState2 : Event :=
  { roomId := "!room:x", type := "m.room.topic", stateKey := "", isState := true
    content := typingContent (UserIds.ids ["marker"]) }

/-- C2 witness: folding two accepted topic events into the sample store makes
the topic slot hold exactly the second one. -/
theorem getStateEvents_last_write_wins_witness :
    ([sampleTopicState1, sampleTopicState2] ≠ ([] : List Event)) ∧
    (∀ e ∈ [sampleTopicState1, sampleTopicState2],
      e.roomId = sampleState.roomId ∧ e.isState = true ∧
        e.type = "m.room.topic" ∧ e.stateKey = "") ∧
    (∃ s2, setStateEvents sampleState [sampleTopicState1, sampleTopicState2] = Except.ok s2 ∧
      getStateEvents s2 "m.room.topic" "" = [sampleTopicState1, sampleTopicState2].getLast?) :=
  ⟨by decide, by decide,
    ⟨_, rfl,
      getStateEvents_last_write_wins sampleState [sampleTopicState1, sampleTopicState2]
        "m.room.topic" "" _ (by decide) (by decide) rfl⟩⟩

/-- Well-formed power-levels content: `users = {"@a:x": 100, "@b:x": 50}`,
`users_default = 0`. -/
def samplePowerContent : Content :=
  { users := some [("@a:x", 100), ("@b:x", 50)], users_default := some 0
    user_ids := UserIds.notList, membership := none }

/-- C7: under well-formed power-levels content (every listed level
nonnegative, `users_default` nonnegative or absent), the projection succeeds
and yields `powerLevelNorm` in `[0, 100]`; and whenever `maxLevel ≤ 0` the
norm is exactly 0. -/
theorem powerLevelNorm_in_range (c : Content) (m : RoomMember) (users : List (String × Int))
    (hu : c.users = some users)
    (hpos : ∀ p ∈ users, 0 ≤ p.2)
    (hd : ∀ dv, c.users_default = some dv → 0 ≤ dv) :
    ∃ m2, _setPowerLevel c m = Except.ok m2 ∧
      0 ≤ m2.powerLevelNorm ∧ m2.powerLevelNorm ≤ 100 ∧
      (maxLevelOf c ≤ 0 → m2.powerLevelNorm = 0) := by
  rw [_setPowerLevel_ok c m users hu]
  refine ⟨_, rfl, ?_⟩
  dsimp only
  have hd0 : 0 ≤ (jsOr c.users_default (some 0)).getD 0 := by
    cases hdv : c.users_default with
    | none => simp [jsOr, intTruthy]
    | some dv =>
      by_cases h0 : dv = 0
      · subst h0; simp [jsOr, intTruthy]
      · have h1 : jsOr (some dv) (some 0) = some dv := by simp [jsOr, intTruthy, h0]
        rw [h1, Option.getD_some]
        exact hd dv hdv
  have hseed_le : (jsOr c.users_default (some 0)).getD 0 ≤ maxLevelOf c := by
    unfold maxLevelOf
    exact le_foldl_max _ _
  have hvals_le : ∀ x ∈ users.map Prod.snd, x ≤ maxLevelOf c := by
    intro x hx
    unfold maxLevelOf
    rw [hu]
    exact mem_le_foldl_max _ x _ hx
  have hvals_pos : ∀ x ∈ users.map Prod.snd, (0 : Int) ≤ x := by
    intro x hx
    rcases List.mem_map.mp hx with ⟨p, hp, rfl⟩
    exact hpos p hp
  have hbounds : 0 ≤ (jsOr (jsOr (alookup m.userId users) c.users_default) (some 0)).getD 0 ∧
      (jsOr (jsOr (alookup m.userId users) c.users_default) (some 0)).getD 0 ≤ maxLevelOf c := by
    cases hlk : alookup m.userId users with
    | none =>
      have h1 : jsOr none c.users_default = c.users_default := by simp [jsOr, intTruthy]
      rw [h1]
      exact ⟨hd0, hseed_le⟩
    | some lvl =>
      by_cases h0 : lvl = 0
      · subst h0
        have h1 : jsOr (some 0) c.users_default = c.users_default := by
          simp [jsOr, intTruthy]
        rw [h1]
        exact ⟨hd0, hseed_le⟩
      · have h1 : jsOr (some lvl) c.users_default = some lvl := by
          simp [jsOr, intTruthy, h0]
        have h2 : jsOr (some lvl) (some 0) = some lvl := by
          simp [jsOr, intTruthy, h0]
        rw [h1, h2, Option.getD_some]
        exact ⟨hvals_pos lvl (alookup_mem_snd _ _ _ hlk),
          hvals_le lvl (alookup_mem_snd _ _ _ hlk)⟩
  obtain ⟨hp0, hpmax⟩ := hbounds
  by_cases hmax : maxLevelOf c > 0
  · rw [if_pos hmax]
    have hq0 : (0 : ℚ) ≤
        (((jsOr (jsOr (alookup m.userId users) c.users_default) (some 0)).getD 0 : Int) : ℚ) := by
      exact_mod_cast hp0
    have hqmax : (0 : ℚ) < ((maxLevelOf c : Int) : ℚ) := by exact_mod_cast hmax
    have hqle :
        (((jsOr (jsOr (alookup m.userId users) c.users_default) (some 0)).getD 0 : Int) : ℚ) ≤
          ((maxLevelOf c : Int) : ℚ) := by
      exact_mod_cast hpmax
    refine ⟨?_, ?_, ?_⟩
    · exact div_nonneg (by nlinarith) (le_of_lt hqmax)
    · rw [div_le_iff₀ hqmax]
      nlinarith
    · intro hle
      exact absurd hmax (not_lt.mpr hle)
  · rw [if_neg hmax]
    exact ⟨le_refl 0, by norm_num, fun _ => rfl⟩

/-- C7 witness: the projection of member `@a:x` under the sample power-levels
content is normal and in range. -/
theorem powerLevelNorm_in_range_witness :
    samplePowerContent.users = some [("@a:x", 100), ("@b:x", 50)] ∧
    (∀ p ∈ [(("@a:x" : String), (100 : Int)), ("@b:x", 50)], 0 ≤ p.2) ∧
    (∀ dv, samplePowerContent.users_default = some dv → 0 ≤ dv) ∧
    (∃ m2, _setPowerLevel samplePowerContent sampleMemberA = Except.ok m2 ∧
      0 ≤ m2.powerLevelNorm ∧ m2.powerLevelNorm ≤ 100 ∧
      (maxLevelOf samplePowerContent ≤ 0 → m2.powerLevelNorm = 0)) :=
  ⟨rfl, by decide,
    fun dv hdv => by
      rw [show samplePowerContent.users_default = some 0 from rfl, Option.some_inj] at hdv
      rw [← hdv],
    powerLevelNorm_in_range samplePowerContent sampleMemberA [("@a:x", 100), ("@b:x", 50)]
      rfl (by decide)
      (fun dv hdv => by
        rw [show samplePowerContent.users_default = some 0 from rfl, Option.some_inj] at hdv
        rw [← hdv])⟩

/-! ### Run-level lemmas for the mutating surface -/

theorem runStateEvents_cons (s : RoomState) (e : Event) (rest : List Event) :
    runStateEvents s (e :: rest) =
      match setStateEvent1 s e with
      | Except.ok s2 => runStateEvents s2 rest
      | Except.error err => err.2 := by
  unfold runStateEvents
  rw [setStateEvents_cons]
  cases setStateEvent1 s e with
  | ok s2 => rfl
  | error err => rfl

theorem mem_keys_runStateEvents (s : RoomState) (es : List Event) (uid : String)
    (hm : uid ∈ memberKeys s) : uid ∈ memberKeys (runStateEvents s es) := by
  induction es generalizing s with
  | nil => exact hm
  | cons e rest ih =>
    rw [runStateEvents_cons]
    cases hstep : setStateEvent1 s e with
    | ok s2 => exact ih s2 (mem_keys_setStateEvent1_ok s e s2 uid hstep hm)
    | error err => exact mem_keys_setStateEvent1_err s e err uid hstep hm

theorem mem_keys_runTyping (s : RoomState) (e : Event) (uid : String)
    (hm : uid ∈ memberKeys s) : uid ∈ memberKeys (runTyping s e) := by
  unfold runTyping setTypingEvent
  by_cases ht : e.type ≠ "m.typing"
  · rw [if_pos ht]
    exact hm
  · rw [if_neg ht]
    cases hl : e.content.user_ids with
    | notList =>
      simp only [memberKeys] at hm ⊢
      rw [← alookup_isSome_iff_mem_fst] at hm ⊢
      rw [isSome_alookup_resetTyping]
      exact hm
    | ids l =>
      simp only [memberKeys] at hm ⊢
      rw [← alookup_isSome_iff_mem_fst] at hm ⊢
      rw [isSome_alookup_applyTypingList, isSome_alookup_resetTyping]
      exact hm

theorem mem_keys_runCall (s : RoomState) (c : Call) (uid : String)
    (hm : uid ∈ memberKeys s) : uid ∈ memberKeys (runCall s c) := by
  cases c with
  | state es => exact mem_keys_runStateEvents s es uid hm
  | typing e => exact mem_keys_runTyping s e uid hm

theorem member_event_key_present_ok (s : RoomState) (e : Event) (s2 : RoomState)
    (hty : e.type = "m.room.member") (h : setStateEvent1 s e = Except.ok s2)
    (hr : e.roomId = s.roomId) (hs : e.isState = true) :
    e.stateKey ∈ memberKeys s2 := by
  simp only [setStateEvent1] at h
  rw [if_neg (fun hh => hh hr), if_neg (by simp [hs]), if_pos hty] at h
  repeat' split at h
  all_goals first
  | (injection h with h; subst h; simp only [memberKeys];
     exact self_mem_fst_setAssoc _ _ _)
  | injection h

theorem member_event_key_present_err (s : RoomState) (e : Event) (err : String × RoomState)
    (hty : e.type = "m.room.member") (h : setStateEvent1 s e = Except.error err)
    (hr : e.roomId = s.roomId) (hs : e.isState = true) :
    e.stateKey ∈ memberKeys err.2 := by
  simp only [setStateEvent1] at h
  rw [if_neg (fun hh => hh hr), if_neg (by simp [hs]), if_pos hty] at h
  repeat' split at h
  all_goals first
  | (injection h with h; subst h; simp only [memberKeys];
     exact self_mem_fst_setAssoc _ _ _)
  | injection h

/-- C8: the member dictionary only grows.  First conjunct: across any
sequence of `setStateEvents` / `setTypingEvent` calls (including ones that
throw mid-way), a user id present in `members` stays present.  Second
conjunct: folding an accepted `m.room.member` event — whatever its membership
value, "leave" included — leaves its state key present in `members`
afterwards. -/
theorem members_never_removed (s : RoomState) (calls : List Call) (uid : String) (e : Event) :
    (uid ∈ memberKeys s → uid ∈ memberKeys (calls.foldl runCall s)) ∧
    (e.roomId = s.roomId → e.isState = true → e.type = "m.room.member" →
      e.stateKey ∈ memberKeys (runCall s (Call.state [e]))) := by
  constructor
  · intro hm
    induction calls generalizing s with
    | nil => exact hm
    | cons c rest ih =>
      rw [List.foldl_cons]
      exact ih (runCall s c) (mem_keys_runCall s c uid hm)
  · intro hr hs hty
    show e.stateKey ∈ memberKeys (runStateEvents s [e])
    rw [runStateEvents_cons]
    cases hstep : setStateEvent1 s e with
    | ok s2 => exact member_event_key_present_ok s e s2 hty hstep hr hs
    | error err => exact member_event_key_present_err s e err hty hstep hr hs

/-- A leave-membership event for the existing member `@a:x`. -/
def sampleLeaveEventA : Event :=
  { roomId := "!room:x", type := "m.room.member", stateKey := "@a:x", isState := true
    content := { users := none, users_default := none, user_ids := UserIds.notList
                 membership := some "leave" } }

/-- C8 witness: `@b:x` survives a typing call and a state batch, and folding
a leave event for `@a:x` keeps `@a:x` queryable. -/
theorem members_never_removed_witness :
    "@b:x" ∈ memberKeys sampleState ∧
    "@b:x" ∈ memberKeys
      (List.foldl runCall sampleState
        [Call.typing sampleTypingEvent, Call.state [sampleTopicState1]]) ∧
    sampleLeaveEventA.roomId = sampleState.roomId ∧
    sampleLeaveEventA.isState = true ∧
    sampleLeaveEventA.type = "m.room.member" ∧
    sampleLeaveEventA.content.membership = some "leave" ∧
    "@a:x" ∈ memberKeys (runCall sampleState (Call.state [sampleLeaveEventA])) :=
  ⟨by decide,
    (members_never_removed sampleState
      [Call.typing sampleTypingEvent, Call.state [sampleTopicState1]]
      "@b:x" sampleLeaveEventA).1 (by decide),
    rfl, rfl, rfl, rfl,
    (members_never_removed sampleState
      [Call.typing sampleTypingEvent, Call.state [sampleTopicState1]]
      "@b:x" sampleLeaveEventA).2 rfl rfl rfl⟩

/-- A power-levels event whose content lacks the `users` mapping. -/
def sampleBadPowerEvent : Event :=
  { roomId := "!room:x", type := "m.room.power_levels", stateKey := "", isState := true
    content := { users := none, users_default := some 50, user_ids := UserIds.notList
                 membership := none } }

/-- The sample store with the users-less power-levels event already indexed
at the `("m.room.power_levels", "")` slot. -/
def samplePLState : RoomState :=
  { sampleState with
    stateEvents := [("m.room.power_levels", [("", sampleBadPowerEvent)])] }

/-- C10: the power projection is total only when the power-levels content has
a `users` mapping.  First conjunct: folding an accepted `m.room.power_levels`
event without `users` into a store with at least one member throws.  Second
conjunct: folding an accepted `m.room.member` event while the indexed
power-levels event lacks `users` throws.  Third conjunct: with `users`
present the error branch is unreachable — the projection always returns
normally. -/
theorem powerLevels_missing_users_throws (s1 s2 : RoomState) (e1 e2 pe : Event)
    (c : Content) (m : RoomMember) :
    (e1.roomId = s1.roomId → e1.isState = true → e1.type = "m.room.power_levels" →
      e1.content.users = none → s1.members ≠ [] →
      ∃ err, setStateEvent1 s1 e1 = Except.error err) ∧
    (e2.roomId = s2.roomId → e2.isState = true → e2.type = "m.room.member" →
      getStateEvents s2 "m.room.power_levels" "" = some pe → pe.content.users = none →
      ∃ err, setStateEvent1 s2 e2 = Except.error err) ∧
    (c.users.isSome = true → ∃ m2, _setPowerLevel c m = Except.ok m2) := by
  refine ⟨?_, ?_, ?_⟩
  · intro hr hs hty hu hne
    simp only [setStateEvent1]
    rw [if_neg (fun hh => hh hr), if_neg (by simp [hs]),
      if_neg (by rw [hty]; decide), if_pos hty]
    cases hms : s1.members with
    | nil => exact absurd hms hne
    | cons p rest =>
      obtain ⟨uid0, m0⟩ := p
      have hsp : setAllPowerLevels e1.content ((uid0, m0) :: rest) =
          ((uid0, m0) :: rest, some "TypeError: cannot read properties of undefined") := by
        unfold setAllPowerLevels
        rw [_setPowerLevel_err e1.content m0 hu]
      rw [hsp]
      exact ⟨_, rfl⟩
  · intro hr hs hty hpe hu
    simp only [setStateEvent1]
    rw [if_neg (fun hh => hh hr), if_neg (by simp [hs]), if_pos hty]
    have hlook :
        getStateEvents
          { s2 with
            stateEvents := insert2 s2.stateEvents e2.type e2.stateKey e2
            members :=
              setAssoc e2.stateKey
                (newRoomMember e2
                  { s2 with stateEvents := insert2 s2.stateEvents e2.type e2.stateKey e2 })
                s2.members }
          "m.room.power_levels" "" = some pe := by
      unfold getStateEvents
      dsimp only
      rw [lookup2_insert2,
        if_neg (fun hh : "m.room.power_levels" = e2.type ∧ ("" : String) = e2.stateKey => by
          rw [hty] at hh
          exact absurd hh.1 (by decide))]
      exact hpe
    rw [hlook]
    have herr : ∀ mm, _setPowerLevel pe.content mm =
        Except.error "TypeError: cannot read properties of undefined" :=
      fun mm => _setPowerLevel_err pe.content mm hu
    simp only [herr]
    exact ⟨_, rfl⟩
  · intro hc
    cases hu : c.users with
    | none => rw [hu] at hc; cases hc
    | some users => exact ⟨_, _setPowerLevel_ok c m users hu⟩

/-- C10 witness: the users-less power-levels event throws on the sample store
(which has members); a member fold under the indexed users-less power event
throws; the well-formed sample content never throws. -/
theorem powerLevels_missing_users_throws_witness :
    (sampleBadPowerEvent.roomId = sampleState.roomId ∧
      sampleBadPowerEvent.isState = true ∧
      sampleBadPowerEvent.type = "m.room.power_levels" ∧
      sampleBadPowerEvent.content.users = none ∧
      sampleState.members ≠ [] ∧
      ∃ err, setStateEvent1 sampleState sampleBadPowerEvent = Except.error err) ∧
    (sampleMemberEventA.roomId = samplePLState.roomId ∧
      sampleMemberEventA.isState = true ∧
      sampleMemberEventA.type = "m.room.member" ∧
      getStateEvents samplePLState "m.room.power_levels" "" = some sampleBadPowerEvent ∧
      sampleBadPowerEvent.content.users = none ∧
      ∃ err, setStateEvent1 samplePLState sampleMemberEventA = Except.error err) ∧
    (samplePowerContent.users.isSome = true ∧
      ∃ m2, _setPowerLevel samplePowerContent sampleMemberA = Except.ok m2) :=
  ⟨⟨rfl, rfl, rfl, rfl, by decide,
      (powerLevels_missing_users_throws sampleState samplePLState sampleBadPowerEvent
        sampleMemberEventA sampleBadPowerEvent samplePowerContent sampleMemberA).1
        rfl rfl rfl rfl (by decide)⟩,
    ⟨rfl, rfl, rfl, by decide, rfl,
      (powerLevels_missing_users_throws sampleState samplePLState sampleBadPowerEvent
        sampleMemberEventA sampleBadPowerEvent samplePowerContent sampleMemberA).2.1
        rfl rfl rfl (by decide) rfl⟩,
    ⟨rfl,
      (powerLevels_missing_users_throws sampleState samplePLState sampleBadPowerEvent
        sampleMemberEventA sampleBadPowerEvent samplePowerContent sampleMemberA).2.2
        rfl⟩⟩

end RoomStateModel
